import Mathlib

/-
Verification development for the repository's ingestion/indexing core.

Shallow embedding of:
  * app/backend/error.py           (error_dict)
  * app/functions/zip_processor/function_app.py  (process_zip_job, zip_processor)
  * prepdocslib figure-processor acquisition discipline (modelled from the
    spec, since only its tests are available in the sources).

Python strings are modelled as Lean Strings; the handful of Python string
operations used by the code (single-character str.replace, lstrip/strip of
slashes, str.split on a slash, os.path.splitext, str.lower, endswith) are
translated explicitly over the underlying character lists so that every
statement is executable by the kernel.
-/

namespace BackendError

/-- Template of error.py's ERROR_MESSAGE; the argument stands for the Python
expression type(error) interpolated by str.format. -/
def ERROR_MESSAGE (error_type : String) : String :=
  "The app encountered an error processing your request.\nIf you are an administrator of the app, check the application logs for a full traceback.\nError type: " ++ error_type ++ "\n"

def ERROR_MESSAGE_FILTER : String :=
  "Your message contains content that was flagged by the OpenAI content filter."

def ERROR_MESSAGE_LENGTH : String :=
  "Your message exceeded the context length limit for this OpenAI model. Please shorten your message or change your settings to retrieve fewer search results."

def ERROR_MESSAGE_AZURE (message : String) (error_type : String) : String :=
  "Azure service error: " ++ message ++ "\nIf indexing is in progress, try again in a minute. Error type: " ++ error_type

/-- Exceptions as seen by error_dict.  An openai APIError carries its code
attribute (Option: may be None) and the repr of its type; an azure
HttpResponseError carries its message attribute (None when absent), its
str() fallback, its response attribute (outer Option: response present?,
inner Option: status_code attribute value, which may itself be None), and
its type name; every other exception carries only the repr of its type. -/
inductive PyExc where
  | apiError (code : Option String) (type_repr : String)
  | httpResponseError (message : Option String) (str_repr : String)
      (response : Option (Option Nat)) (type_name : String)
  | otherExc (type_repr : String)
deriving DecidableEq

/-- Python: status = getattr(error.response, "status_code", None) if getattr(error, "response", None) else None -/
def statusOf (response : Option (Option Nat)) : Option Nat :=
  match response with
  | some s => s
  | none => none

/-- Python: msg = getattr(error, "message", None) or str(error)
(empty string is falsy, so it falls back to str(error)). -/
def azureBaseMsg (message : Option String) (str_repr : String) : String :=
  match message with
  | some m => if m = "" then str_repr else m
  | none => str_repr

/-- error.py error_dict, returning the dict as an association list. -/
def error_dict (e : PyExc) : List (String × String) :=
  match e with
  | .apiError code type_repr =>
    if code = some "content_filter" then
      [("error", ERROR_MESSAGE_FILTER)]
    else if code = some "context_length_exceeded" then
      [("error", ERROR_MESSAGE_LENGTH)]
    else
      [("error", ERROR_MESSAGE type_repr)]
  | .httpResponseError message str_repr response type_name =>
    let msg0 := azureBaseMsg message str_repr
    let msg :=
      match statusOf response with
      | some n => if n ≠ 0 then "[HTTP " ++ Nat.repr n ++ "] " ++ msg0 else msg0
      | none => msg0
    [("error", ERROR_MESSAGE_AZURE msg type_name)]
  | .otherExc type_repr => [("error", ERROR_MESSAGE type_repr)]

end BackendError

namespace ZipFn

/-- function_app.py: MAX_ZIP_SIZE_BYTES = 50 * 1024 * 1024 -/
def MAX_ZIP_SIZE_BYTES : Nat := 50 * 1024 * 1024

/-- function_app.py: MAX_ZIP_FILE_COUNT = 30000 -/
def MAX_ZIP_FILE_COUNT : Nat := 30000

/-- Python single-character str.replace over a character list: every
occurrence of c is replaced by the character list r. -/
def replaceCharL (c : Char) (r : List Char) : List Char → List Char
  | [] => []
  | a :: as => (if a = c then r else [a]) ++ replaceCharL c r as

/-- Python s.replace(c, r) for a single-character pattern c. -/
def pyReplaceChar (c : Char) (r : String) (s : String) : String :=
  ⟨replaceCharL c r.data s.data⟩

/-- Python s.lstrip("/"). -/
def lstripSlash (s : String) : String :=
  ⟨s.data.dropWhile (fun c => c = '/')⟩

/-- Python s.strip("/"). -/
def stripSlash (s : String) : String :=
  ⟨((s.data.dropWhile (fun c => c = '/')).reverse.dropWhile (fun c => c = '/')).reverse⟩

/-- Python s.endswith("/"). -/
def endsWithSlash (s : String) : Bool :=
  match s.data.getLast? with
  | some c => c = '/'
  | none => false

/-- The final path component (everything after the last '/'), as used by
os.path.splitext's separator handling. -/
def lastComponent (cs : List Char) : List Char :=
  (cs.reverse.takeWhile (fun c => c ≠ '/')).reverse

/-- Python os.path.splitext(rel_path)[1]: the extension of the final path
component, where leading dots of the component do not start an extension. -/
def extOf (rel_path : String) : String :=
  let base := lastComponent rel_path.data
  let stripped := base.dropWhile (fun c => c = '.')
  if stripped.contains '.' then
    ⟨'.' :: (stripped.reverse.takeWhile (fun c => c ≠ '.')).reverse⟩
  else ""

/-- Python str.lower over each character. -/
def lowerStr (s : String) : String :=
  ⟨s.data.map Char.toLower⟩

/-- function_app.py line 155: zip_basename = filename.rsplit(".", 1)[0] if "." in filename else "archive". -/
def zipBasename (filename : String) : String :=
  if filename.data.contains '.' then
    ⟨((filename.data.reverse.dropWhile (fun c => c ≠ '.')).drop 1).reverse⟩
  else "archive"

/-- function_app.py line 159: members = [m for m in zf.namelist() if not m.endswith("/")]. -/
def members (names : List String) : List String :=
  names.filter (fun m => !endsWithSlash m)

/-- function_app.py line 166: rel_path = name.replace("\\", "/").lstrip("/"). -/
def normalizeRel (name : String) : String :=
  lstripSlash (pyReplaceChar '\\' "/" name)

/-- function_app.py line 169: flattened = f-string of zip_basename, "__", and
rel_path.replace("/", "__"). -/
def flattenedKey (zip_basename rel_path : String) : String :=
  zip_basename ++ "__" ++ pyReplaceChar '/' "__" rel_path

/-- One element of to_process: (name, rel_path, flattened). -/
structure ZipEntry where
  name : String
  rel_path : String
  flattened : String
deriving DecidableEq

/-- function_app.py lines 163-170: the to_process comprehension over the
non-directory members, keeping entries whose lower-cased extension is in the
supported set. -/
def to_process (zip_basename : String) (supported : List String) (ms : List String) : List ZipEntry :=
  ms.filterMap (fun name =>
    let rel_path := normalizeRel name
    if supported.contains (lowerStr (extOf rel_path)) then
      some ⟨name, rel_path, flattenedKey zip_basename rel_path⟩
    else none)

/-- One upload_session_progress call: its keyword arguments (upload_id is the
same constant for every call of a run and is omitted). -/
structure Snapshot where
  status : String
  files_total : Nat
  files_done : Nat
  indexed_ids : List String
  user_oid : String
deriving DecidableEq

/-- function_app.py lines 184-213: the per-file loop.  State is
(files_done, indexed_ids, progress snapshots written so far).  The fails
oracle says whether the per-file unit for an entry raises during
zf.read / upload_blob / add_file (all of which precede the append to
indexed_ids); such an exception is caught by the except clause, logged, and
the loop continues.  A successful iteration appends the flattened key,
increments files_done and writes a progress snapshot. -/
def runLoop (files_total : Nat) (user_oid : String) (fails : ZipEntry → Bool) :
    List ZipEntry → Nat × List String × List Snapshot → Nat × List String × List Snapshot
  | [], st => st
  | e :: rest, (files_done, indexed_ids, snaps) =>
    if fails e then
      runLoop files_total user_oid fails rest (files_done, indexed_ids, snaps)
    else
      runLoop files_total user_oid fails rest
        (files_done + 1, indexed_ids ++ [e.flattened],
         snaps ++ [⟨"processing", files_total, files_done + 1, indexed_ids ++ [e.flattened], user_oid⟩])

/-- Result of one process_zip_job run: the upload_session_progress snapshots
written, in order, and the exception raised to the caller (none if the job
returned normally). -/
structure ZipJobResult where
  snapshots : List Snapshot
  error : Option String
deriving DecidableEq

/-- function_app.py lines 171-222: the per-file phase, entered after all
validation passed.  Writes the initial processing snapshot, runs the loop,
then writes the final completed snapshot. -/
def runJob (user_oid : String) (tp : List ZipEntry) (fails : ZipEntry → Bool) : ZipJobResult :=
  let files_total := tp.length
  let st := runLoop files_total user_oid fails tp
    (0, [], [⟨"processing", files_total, 0, [], user_oid⟩])
  ⟨st.2.2 ++ [⟨"completed", files_total, st.1, st.2.1, user_oid⟩], none⟩

def noChunksMsg (upload_id : String) : String :=
  "No chunks found for session " ++ upload_id

def sizeLimitMsg : String :=
  "Zip exceeds " ++ Nat.repr (MAX_ZIP_SIZE_BYTES / (1024 * 1024)) ++ " MB limit"

def countLimitMsg : String :=
  "Zip contains too many files (max " ++ Nat.repr MAX_ZIP_FILE_COUNT ++ ")"

/-- function_app.py lines 142-222: process_zip_job.  data_len is the byte
length of the assembled archive (len(data); the empty-bytes falsy check is
data_len = 0); names is zf.namelist(); supported the set of supported
extensions (keys of ingester.file_processors); fails the environment oracle
for per-file exceptions.  The session deletion after the progress writes has
no observable effect on the modelled state and is omitted. -/
def process_zip_job (upload_id filename user_oid : String) (data_len : Nat)
    (names supported : List String) (fails : ZipEntry → Bool) : ZipJobResult :=
  if data_len = 0 then ⟨[], some (noChunksMsg upload_id)⟩
  else if MAX_ZIP_SIZE_BYTES < data_len then ⟨[], some sizeLimitMsg⟩
  else if MAX_ZIP_FILE_COUNT < (members names).length then ⟨[], some countLimitMsg⟩
  else runJob user_oid (to_process (zipBasename filename) supported (members names)) fails

/-- Python s.split("/"): the accumulator holds the current segment reversed. -/
def splitSlashAux : List Char → List Char → List (List Char)
  | [], acc => [acc.reverse]
  | c :: cs, acc =>
    if c = '/' then acc.reverse :: splitSlashAux cs []
    else splitSlashAux cs (c :: acc)

def pySplitSlash (s : String) : List String :=
  (splitSlashAux s.data []).map (fun l => ⟨l⟩)

/-- function_app.py line 236: parts = blob.name.replace("\\", "/").strip("/").split("/"). -/
def normalized_parts (blobName : String) : List String :=
  pySplitSlash (stripSlash (pyReplaceChar '\\' "/" blobName))

/-- function_app.py line 237: upload_id = parts[-2] if len(parts) >= 2 else (parts[0] if parts else "unknown"). -/
def derive_upload_id (blobName : String) : String :=
  let parts := normalized_parts blobName
  if h : 2 ≤ parts.length then parts.get ⟨parts.length - 2, by omega⟩
  else parts.headD "unknown"

/-- The fields read off the parsed _job.json dict via job.get (absent key
gives none). -/
structure JobFields where
  filename : Option String
  user_oid : Option String
deriving DecidableEq

/-- Python truthiness of an optional string: None and "" are falsy. -/
def pyTruthy : Option String → Bool
  | none => false
  | some s => !s.data.isEmpty

/-- The observable outcome of one zip_processor invocation: whether
process_zip_job was invoked, and the exception re-raised to the host
(none when the handler returned normally). -/
structure HandlerResult where
  invoked_pipeline : Bool
  raised : Option String
deriving DecidableEq

/-- function_app.py lines 233-257: the blob-trigger handler.  parsed is the
outcome of json.loads on the blob body (none on parse failure); pipeline is
the behaviour of asyncio.run(process_zip_job(...)): the exception it raises,
or none when it completes. -/
def zip_processor (blobName : String) (parsed : Option JobFields)
    (pipeline : String → String → String → Option String) : HandlerResult :=
  let upload_id := derive_upload_id blobName
  match parsed with
  | none => ⟨false, none⟩
  | some job =>
    if !pyTruthy job.filename || !pyTruthy job.user_oid then
      ⟨false, none⟩
    else
      ⟨true, pipeline upload_id (job.filename.getD "") (job.user_oid.getD "")⟩

end ZipFn

namespace FigureProc

inductive MediaDescriptionStrategy where
  | NONE
  | OPENAI
  | CONTENTUNDERSTANDING
deriving DecidableEq

/-- Modelled from the spec: credentials are either key-type (rejected by the
CONTENTUNDERSTANDING strategy) or token-type. -/
inductive AzureCredential where
  | keyCredential
  | tokenCredential
deriving DecidableEq

/-- Modelled from the spec: the describer object constructed once per
processor; the CONTENTUNDERSTANDING variant records the configuration it was
built from. -/
inductive MediaDescriber where
  | contentUnderstanding (endpoint : String) (credential : AzureCredential)
  | openaiDescriber (model : String) (deployment : String)
deriving DecidableEq

/-- Modelled from the spec: the FigureProcessor's configuration together with
its mutable acquisition state.  media_describer is the cache
(Uninitialized = none, Cached = some); create_analyzer_calls counts the
remote create-analyzer construction steps performed so far (instrumentation
of the "at most once" construction work). -/
structure FigureProcessor where
  strategy : MediaDescriptionStrategy
  credential : Option AzureCredential := none
  content_understanding_endpoint : Option String := none
  openai_client : Bool := false
  openai_model : Option String := none
  openai_deployment : Option String := none
  media_describer : Option MediaDescriber := none
  create_analyzer_calls : Nat := 0
deriving DecidableEq

/-- Modelled from the spec: describer acquisition (prepdocslib
figureprocessor.get_media_describer, absent from the sources; its tests and
spec section 4.5 describe it).  A cached describer is returned as is;
otherwise the strategy's configuration is validated, the describer is
constructed, the CONTENTUNDERSTANDING construction performs the remote
create-analyzer step once, and the result is cached. -/
def get_media_describer (p : FigureProcessor) :
    Except String (Option MediaDescriber × FigureProcessor) :=
  match p.media_describer with
  | some d => .ok (some d, p)
  | none =>
    match p.strategy with
    | .NONE => .ok (none, p)
    | .OPENAI =>
      if !p.openai_client || p.openai_model.isNone then
        .error "OpenAI media description requires both a client and a model name"
      else
        let d := MediaDescriber.openaiDescriber (p.openai_model.getD "") (p.openai_deployment.getD "")
        .ok (some d, { p with media_describer := some d })
    | .CONTENTUNDERSTANDING =>
      match p.content_understanding_endpoint with
      | none => .error "Content Understanding strategy requires an endpoint"
      | some endpoint =>
        match p.credential with
        | none => .error "Content Understanding strategy requires a credential"
        | some .keyCredential => .error "Content Understanding does not support key credentials"
        | some .tokenCredential =>
          let d := MediaDescriber.contentUnderstanding endpoint .tokenCredential
          .ok (some d, { p with media_describer := some d,
                                create_analyzer_calls := p.create_analyzer_calls + 1 })

/-- Modelled from the spec: describe(bytes) acquires the describer and
delegates to its image-description operation; describeImage is the
environment's behaviour of that remote operation. -/
def describe (describeImage : MediaDescriber → String) (p : FigureProcessor) :
    Except String (Option String × FigureProcessor) :=
  match get_media_describer p with
  | .error e => .error e
  | .ok (none, p') => .ok (none, p')
  | .ok (some d, p') => .ok (some (describeImage d), p')

end FigureProc

/-! Theorems.  Helper lemmas come first; each claim's theorem carries a doc
comment naming the claim. -/

open BackendError ZipFn FigureProc

/-- C8: error_dict maps every exception to a dict with exactly one "error"
key such that: an APIError with code "content_filter" yields the
content-filter message; an APIError with code "context_length_exceeded"
yields the context-length message; an HttpResponseError yields the
Azure-service message, prefixed with the HTTP status exactly when a response
status code is available; every other exception yields the generic message
naming the error type.  The hypothesis records that a present HTTP status
code is positive (HTTP status codes are ≥ 100; the code's truthiness test
would drop the prefix for a status of 0). -/
theorem c8_error_dict_cases (e : PyExc)
    (hpos : ∀ m s t n, e = .httpResponseError m s (some (some n)) t → 0 < n) :
    (∃ msg, error_dict e = [("error", msg)]) ∧
    (∀ t, e = .apiError (some "content_filter") t →
      error_dict e = [("error", ERROR_MESSAGE_FILTER)]) ∧
    (∀ t, e = .apiError (some "context_length_exceeded") t →
      error_dict e = [("error", ERROR_MESSAGE_LENGTH)]) ∧
    (∀ m s r t, e = .httpResponseError m s r t →
      (∀ n, statusOf r = some n →
        error_dict e =
          [("error", ERROR_MESSAGE_AZURE ("[HTTP " ++ Nat.repr n ++ "] " ++ azureBaseMsg m s) t)]) ∧
      (statusOf r = none →
        error_dict e = [("error", ERROR_MESSAGE_AZURE (azureBaseMsg m s) t)])) ∧
    (∀ c t, e = .apiError c t → c ≠ some "content_filter" →
      c ≠ some "context_length_exceeded" →
      error_dict e = [("error", ERROR_MESSAGE t)]) ∧
    (∀ t, e = .otherExc t → error_dict e = [("error", ERROR_MESSAGE t)]) := by
  refine ⟨?_, ?_, ?_, ?_, ?_, ?_⟩
  · cases e with
    | apiError code t =>
      simp only [error_dict]
      split
      · exact ⟨_, rfl⟩
      · split
        · exact ⟨_, rfl⟩
        · exact ⟨_, rfl⟩
    | httpResponseError m s r t => exact ⟨_, rfl⟩
    | otherExc t => exact ⟨_, rfl⟩
  · rintro t rfl
    simp [error_dict]
  · rintro t rfl
    simp [error_dict]
  · rintro m s r t rfl
    constructor
    · intro n hn
      have hr : r = some (some n) := by
        cases r with
        | none => simp [statusOf] at hn
        | some x => cases x <;> simp_all [statusOf]
      have hpn : 0 < n := hpos m s t n (by rw [hr])
      simp [error_dict, hn, Nat.pos_iff_ne_zero.mp hpn]
    · intro hn
      simp [error_dict, hn]
  · rintro c t rfl h1 h2
    simp [error_dict, h1, h2]
  · rintro t rfl
    simp [error_dict]

theorem c8_witness :
    error_dict (.httpResponseError (some "Index busy") "Index busy" (some (some 503)) "HttpResponseError") =
      [("error", ERROR_MESSAGE_AZURE "[HTTP 503] Index busy" "HttpResponseError")] := by
  have h := c8_error_dict_cases
    (.httpResponseError (some "Index busy") "Index busy" (some (some 503)) "HttpResponseError")
    (by intro m s t n hn; injection hn with h1 h2 h3 h4; simp at h3; omega)
  have h3 := (h.2.2.2.1 (some "Index busy") "Index busy" (some (some 503)) "HttpResponseError" rfl).1
    503 rfl
  simpa [azureBaseMsg] using h3

/-- C6: the trigger handler returns normally (raising nothing, not invoking
the pipeline) when the job body fails to parse or when filename or user_oid
is missing from the parsed descriptor; any exception escaping
process_zip_job is re-raised to the caller. -/
theorem c6_handler_outcomes (blobName : String) (parsed : Option JobFields)
    (pipeline : String → String → String → Option String) :
    (parsed = none → zip_processor blobName parsed pipeline = ⟨false, none⟩) ∧
    (∀ j, parsed = some j → (j.filename = none ∨ j.user_oid = none) →
      zip_processor blobName parsed pipeline = ⟨false, none⟩) ∧
    (∀ j e, parsed = some j → pyTruthy j.filename = true → pyTruthy j.user_oid = true →
      pipeline (derive_upload_id blobName) (j.filename.getD "") (j.user_oid.getD "") = some e →
      zip_processor blobName parsed pipeline = ⟨true, some e⟩) := by
  refine ⟨?_, ?_, ?_⟩
  · rintro rfl
    simp [zip_processor]
  · rintro j rfl (h | h) <;> simp [zip_processor, h, pyTruthy]
  · rintro j e rfl h1 h2 h3
    simp [zip_processor, h1, h2, h3]

theorem c6_witness :
    zip_processor "c/s/u1/_job.json" none (fun _ _ _ => some "boom") = ⟨false, none⟩ ∧
    zip_processor "c/s/u1/_job.json" (some ⟨none, some "oid"⟩) (fun _ _ _ => some "boom") =
      ⟨false, none⟩ ∧
    zip_processor "c/s/u1/_job.json" (some ⟨some "a.zip", some "oid"⟩) (fun _ _ _ => some "boom") =
      ⟨true, some "boom"⟩ :=
  ⟨(c6_handler_outcomes "c/s/u1/_job.json" none (fun _ _ _ => some "boom")).1 rfl,
   (c6_handler_outcomes "c/s/u1/_job.json" (some ⟨none, some "oid"⟩)
      (fun _ _ _ => some "boom")).2.1 ⟨none, some "oid"⟩ rfl (Or.inl rfl),
   (c6_handler_outcomes "c/s/u1/_job.json" (some ⟨some "a.zip", some "oid"⟩)
      (fun _ _ _ => some "boom")).2.2 ⟨some "a.zip", some "oid"⟩ "boom" rfl (by decide)
      (by decide) rfl⟩

/-- C10: an empty-string (falsy) filename or user_oid in a successfully
parsed job descriptor is treated like an absent field: the handler returns
normally without invoking the ingestion pipeline. -/
theorem c10_empty_fields_not_processed (blobName : String) (j : JobFields)
    (pipeline : String → String → String → Option String)
    (h : j.filename = some "" ∨ j.user_oid = some "") :
    zip_processor blobName (some j) pipeline = ⟨false, none⟩ := by
  rcases h with h | h <;> simp [zip_processor, h, pyTruthy]

theorem c10_witness :
    zip_processor "c/s/u1/_job.json" (some ⟨some "", some "oid"⟩) (fun _ _ _ => some "boom") =
      ⟨false, none⟩ :=
  c10_empty_fields_not_processed "c/s/u1/_job.json" ⟨some "", some "oid"⟩
    (fun _ _ _ => some "boom") (Or.inl rfl)

/-- C9: for a correctly configured CONTENTUNDERSTANDING figure processor,
two sequential describe calls perform the remote create-analyzer
construction step exactly once, and every acquisition call after the first
returns the same cached describer without reinvoking construction. -/
theorem c9_create_analyzer_once (describeImage : MediaDescriber → String)
    (endpoint : String) (p₀ : FigureProcessor)
    (hs : p₀.strategy = .CONTENTUNDERSTANDING)
    (hc : p₀.credential = some .tokenCredential)
    (he : p₀.content_understanding_endpoint = some endpoint)
    (hm : p₀.media_describer = none)
    (hz : p₀.create_analyzer_calls = 0) :
    ∃ d p₁,
      describe describeImage p₀ = .ok (some (describeImage d), p₁) ∧
      p₁.create_analyzer_calls = 1 ∧
      p₁.media_describer = some d ∧
      describe describeImage p₁ = .ok (some (describeImage d), p₁) ∧
      (∀ p : FigureProcessor, p.media_describer = some d →
        get_media_describer p = .ok (some d, p)) := by
  refine ⟨MediaDescriber.contentUnderstanding endpoint .tokenCredential,
    { p₀ with media_describer := some (.contentUnderstanding endpoint .tokenCredential),
              create_analyzer_calls := p₀.create_analyzer_calls + 1 },
    ?_, ?_, ?_, ?_, ?_⟩
  · simp [describe, get_media_describer, hs, hc, he, hm]
  · simp [hz]
  · rfl
  · simp [describe, get_media_describer]
  · intro p hp
    simp [get_media_describer, hp]

theorem c9_witness :
    ∃ d p₁,
      describe (fun _ => "A diagram")
        ⟨.CONTENTUNDERSTANDING, some .tokenCredential, some "https://example.com",
          false, none, none, none, 0⟩ = .ok (some ((fun _ => "A diagram") d), p₁) ∧
      p₁.create_analyzer_calls = 1 ∧
      p₁.media_describer = some d ∧
      describe (fun _ => "A diagram") p₁ = .ok (some ((fun _ => "A diagram") d), p₁) ∧
      (∀ p : FigureProcessor, p.media_describer = some d →
        get_media_describer p = .ok (some d, p)) :=
  c9_create_analyzer_once (fun _ => "A diagram") "https://example.com"
    ⟨.CONTENTUNDERSTANDING, some .tokenCredential, some "https://example.com",
      false, none, none, none, 0⟩ rfl rfl rfl rfl rfl

theorem replaceSlash_cons_slash (as : List Char) :
    replaceCharL '/' ['_', '_'] ('/' :: as) = '_' :: '_' :: replaceCharL '/' ['_', '_'] as := by
  simp [replaceCharL]

theorem replaceSlash_cons_ne (a : Char) (h : a ≠ '/') (as : List Char) :
    replaceCharL '/' ['_', '_'] (a :: as) = a :: replaceCharL '/' ['_', '_'] as := by
  simp [replaceCharL, h]

theorem replaceSlash_inj : ∀ p q : List Char, '_' ∉ p → '_' ∉ q →
    replaceCharL '/' ['_', '_'] p = replaceCharL '/' ['_', '_'] q → p = q := by
  intro p
  induction p with
  | nil =>
    intro q hp hq h
    cases q with
    | nil => rfl
    | cons b bs =>
      exfalso
      by_cases hb : b = '/'
      · rw [hb, replaceSlash_cons_slash] at h
        exact List.noConfusion h.symm
      · rw [replaceSlash_cons_ne b hb] at h
        exact List.noConfusion h.symm
  | cons a as ih =>
    intro q hp hq h
    cases q with
    | nil =>
      exfalso
      by_cases ha : a = '/'
      · rw [ha, replaceSlash_cons_slash] at h
        exact List.noConfusion h
      · rw [replaceSlash_cons_ne a ha] at h
        exact List.noConfusion h
    | cons b bs =>
      have ha' : a ≠ '_' := fun e => hp (by simp [e])
      have hb' : b ≠ '_' := fun e => hq (by simp [e])
      have has : '_' ∉ as := fun m => hp (List.mem_cons_of_mem _ m)
      have hbs : '_' ∉ bs := fun m => hq (List.mem_cons_of_mem _ m)
      by_cases ha : a = '/' <;> by_cases hb : b = '/'
      · rw [ha, hb, replaceSlash_cons_slash, replaceSlash_cons_slash] at h
        injection h with _ h'
        injection h' with _ h''
        rw [ha, hb, ih bs has hbs h'']
      · rw [ha, replaceSlash_cons_slash, replaceSlash_cons_ne b hb] at h
        injection h with h1 _
        exact absurd h1.symm hb'
      · rw [hb, replaceSlash_cons_slash, replaceSlash_cons_ne a ha] at h
        injection h with h1 _
        exact absurd h1 ha'
      · rw [replaceSlash_cons_ne a ha, replaceSlash_cons_ne b hb] at h
        injection h with h1 h2
        rw [h1, ih bs has hbs h2]

theorem flattenedKey_data (zip_basename rel_path : String) :
    (flattenedKey zip_basename rel_path).data =
      zip_basename.data ++ '_' :: '_' :: replaceCharL '/' ['_', '_'] rel_path.data := by
  simp [flattenedKey, pyReplaceChar, String.data_append]

/-- C3 counterexample: the relative paths "a/b.ts" and "a__b.ts" are
distinct, both carry the eligible extension ".ts", and both flatten to
"proj__a__b.ts", so the flattening map is not injective. -/
theorem c3_counterexample :
    flattenedKey "proj" "a/b.ts" = flattenedKey "proj" "a__b.ts" ∧
    ("a/b.ts" : String) ≠ "a__b.ts" ∧
    [".ts"].contains (lowerStr (extOf "a/b.ts")) = true ∧
    [".ts"].contains (lowerStr (extOf "a__b.ts")) = true := by
  refine ⟨?_, by decide, by decide, by decide⟩
  decide

/-- C3 (amended): for a fixed archive basename, any two distinct eligible
relative paths neither of which contains an underscore produce distinct
flattened keys; without that restriction injectivity fails (see the
counterexample). -/
theorem c3_flattening_injective (zip_basename p q : String)
    (hp : '_' ∉ p.data) (hq : '_' ∉ q.data) (hne : p ≠ q) :
    flattenedKey zip_basename p ≠ flattenedKey zip_basename q := by
  intro h
  apply hne
  have hd : (flattenedKey zip_basename p).data = (flattenedKey zip_basename q).data := by rw [h]
  rw [flattenedKey_data, flattenedKey_data] at hd
  have h2 := List.append_cancel_left hd
  simp only [List.cons.injEq, true_and] at h2
  have h3 := replaceSlash_inj p.data q.data hp hq h2
  cases p
  cases q
  exact congrArg String.mk h3

theorem c3_witness :
    ('_' ∉ ("a/b.ts" : String).data) ∧ ('_' ∉ ("c.ts" : String).data) ∧
    flattenedKey "proj" "a/b.ts" ≠ flattenedKey "proj" "c.ts" :=
  ⟨by decide, by decide,
   c3_flattening_injective "proj" "a/b.ts" "c.ts" (by decide) (by decide) (by decide)⟩

theorem splitSlashAux_ne_nil : ∀ (cs acc : List Char), splitSlashAux cs acc ≠ [] := by
  intro cs
  induction cs with
  | nil => intro acc; simp [splitSlashAux]
  | cons c cs ih =>
    intro acc
    by_cases hc : c = '/' <;> simp [splitSlashAux, hc, ih]

theorem normalized_parts_ne_nil (blobName : String) : normalized_parts blobName ≠ [] := by
  simp only [normalized_parts, pySplitSlash, ne_eq, List.map_eq_nil_iff]
  exact splitSlashAux_ne_nil _ _

/-- C7 counterexample: the trigger paths "abc" and "xyz" each normalize to a
single segment, yet the derived upload_id is that segment itself — two
different values, so there is no sentinel fallback (in particular not the
code's "unknown", which is unreachable). -/
theorem c7_counterexample :
    (normalized_parts "abc").length < 2 ∧
    (normalized_parts "xyz").length < 2 ∧
    derive_upload_id "abc" = "abc" ∧
    derive_upload_id "xyz" = "xyz" ∧
    derive_upload_id "abc" ≠ derive_upload_id "xyz" ∧
    derive_upload_id "abc" ≠ "unknown" := by
  refine ⟨by decide, by decide, by decide, by decide, by decide, by decide⟩

/-- C7 (amended): upload_id is the second-from-last segment of the
normalized path whenever it has at least two segments; a path with fewer
than two segments yields its sole segment (the split is never empty, so the
"unknown" sentinel branch is unreachable). -/
theorem c7_upload_id_derivation (blobName : String) :
    normalized_parts blobName ≠ [] ∧
    (∀ h : 2 ≤ (normalized_parts blobName).length,
      derive_upload_id blobName =
        (normalized_parts blobName).get ⟨(normalized_parts blobName).length - 2, by omega⟩) ∧
    ((normalized_parts blobName).length < 2 →
      some (derive_upload_id blobName) = (normalized_parts blobName).head?) := by
  refine ⟨normalized_parts_ne_nil blobName, ?_, ?_⟩
  · intro h
    simp only [derive_upload_id]
    rw [dif_pos h]
  · intro h
    have hn : ¬ 2 ≤ (normalized_parts blobName).length := by omega
    simp only [derive_upload_id]
    rw [dif_neg hn]
    cases hp : normalized_parts blobName with
    | nil => exact absurd hp (normalized_parts_ne_nil blobName)
    | cons p rest => rfl

theorem c7_witness :
    derive_upload_id "user-content/_sessions/abc123/_job.json" = "abc123" ∧
    2 ≤ (normalized_parts "user-content/_sessions/abc123/_job.json").length ∧
    (normalized_parts "xy").length < 2 ∧
    some (derive_upload_id "xy") = (normalized_parts "xy").head? := by
  refine ⟨?_, by decide, by decide,
    (c7_upload_id_derivation "xy").2.2 (by decide)⟩
  have h := (c7_upload_id_derivation "user-content/_sessions/abc123/_job.json").2.1 (by decide)
  rw [h]
  decide

theorem runLoop_fst (files_total : Nat) (user_oid : String) (fails : ZipEntry → Bool) :
    ∀ (l : List ZipEntry) (fd : Nat) (ids : List String) (snaps : List Snapshot),
      (runLoop files_total user_oid fails l (fd, ids, snaps)).1 =
        fd + (l.filter (fun e => !fails e)).length := by
  intro l
  induction l with
  | nil => intro fd ids snaps; simp [runLoop]
  | cons e rest ih =>
    intro fd ids snaps
    by_cases hf : fails e
    · simp [runLoop, hf, ih, List.filter_cons]
    · simp only [runLoop, Bool.not_eq_true] at hf ⊢
      rw [if_neg (by simp [hf]), ih]
      simp [List.filter_cons, hf]
      omega

theorem runLoop_ids (files_total : Nat) (user_oid : String) (fails : ZipEntry → Bool) :
    ∀ (l : List ZipEntry) (fd : Nat) (ids : List String) (snaps : List Snapshot),
      (runLoop files_total user_oid fails l (fd, ids, snaps)).2.1 =
        ids ++ (l.filter (fun e => !fails e)).map (fun e => e.flattened) := by
  intro l
  induction l with
  | nil => intro fd ids snaps; simp [runLoop]
  | cons e rest ih =>
    intro fd ids snaps
    by_cases hf : fails e
    · simp [runLoop, hf, ih, List.filter_cons]
    · simp only [runLoop, Bool.not_eq_true] at hf ⊢
      rw [if_neg (by simp [hf]), ih]
      simp [List.filter_cons, hf]

theorem runLoop_snaps_extend (files_total : Nat) (user_oid : String) (fails : ZipEntry → Bool) :
    ∀ (l : List ZipEntry) (fd : Nat) (ids : List String) (snaps : List Snapshot),
      ∃ t, (runLoop files_total user_oid fails l (fd, ids, snaps)).2.2 = snaps ++ t := by
  intro l
  induction l with
  | nil => intro fd ids snaps; exact ⟨[], by simp [runLoop]⟩
  | cons e rest ih =>
    intro fd ids snaps
    by_cases hf : fails e
    · simpa [runLoop, hf] using ih fd ids snaps
    · simp only [runLoop, Bool.not_eq_true] at hf ⊢
      rw [if_neg (by simp [hf])]
      obtain ⟨t, ht⟩ := ih (fd + 1) (ids ++ [e.flattened])
        (snaps ++ [⟨"processing", files_total, fd + 1, ids ++ [e.flattened], user_oid⟩])
      exact ⟨[⟨"processing", files_total, fd + 1, ids ++ [e.flattened], user_oid⟩] ++ t,
        by rw [ht, List.append_assoc]⟩

theorem runJob_error (user_oid : String) (tp : List ZipEntry) (fails : ZipEntry → Bool) :
    (runJob user_oid tp fails).error = none := rfl

theorem runJob_snapshots (user_oid : String) (tp : List ZipEntry) (fails : ZipEntry → Bool) :
    (runJob user_oid tp fails).snapshots =
      (runLoop tp.length user_oid fails tp
          (0, [], [⟨"processing", tp.length, 0, [], user_oid⟩])).2.2 ++
        [⟨"completed", tp.length,
          (runLoop tp.length user_oid fails tp
            (0, [], [⟨"processing", tp.length, 0, [], user_oid⟩])).1,
          (runLoop tp.length user_oid fails tp
            (0, [], [⟨"processing", tp.length, 0, [], user_oid⟩])).2.1, user_oid⟩] := rfl

theorem process_zip_job_ok (upload_id filename user_oid : String) (data_len : Nat)
    (names supported : List String) (fails : ZipEntry → Bool)
    (hd : data_len ≠ 0) (hsz : data_len ≤ MAX_ZIP_SIZE_BYTES)
    (hct : (members names).length ≤ MAX_ZIP_FILE_COUNT) :
    process_zip_job upload_id filename user_oid data_len names supported fails =
      runJob user_oid (to_process (zipBasename filename) supported (members names)) fails := by
  simp only [process_zip_job]
  rw [if_neg hd, if_neg (by omega), if_neg (by omega)]

/-- C1 counterexample: the archive ["a/b.ts", "a__b.ts"] yields two eligible
entries whose flattened keys collide ("proj__a__b.ts").  Exactly the first
entry raises; the job still completes with files_done = N - 1 = 1, but the
failed entry's flattened key IS in indexed_ids (contributed by the other
entry), contradicting the claimed absence. -/
theorem c1_counterexample :
    (to_process (zipBasename "proj.zip") [".ts"] (members ["a/b.ts", "a__b.ts"])).countP
      (fun e => e.name == "a/b.ts") = 1 ∧
    ZipEntry.mk "a/b.ts" "a/b.ts" "proj__a__b.ts" ∈
      to_process (zipBasename "proj.zip") [".ts"] (members ["a/b.ts", "a__b.ts"]) ∧
    (process_zip_job "u" "proj.zip" "o" 1 ["a/b.ts", "a__b.ts"] [".ts"]
      (fun e => e.name == "a/b.ts")).error = none ∧
    (process_zip_job "u" "proj.zip" "o" 1 ["a/b.ts", "a__b.ts"] [".ts"]
        (fun e => e.name == "a/b.ts")).snapshots.getLast? =
      some ⟨"completed", 2, 1, ["proj__a__b.ts"], "o"⟩ ∧
    "proj__a__b.ts" ∈ (["proj__a__b.ts"] : List String) := by
  refine ⟨by decide, by decide, by decide, by decide, by decide⟩

/-- C1 (amended): if the archive passes validation, yields N eligible
entries, and exactly one entry raises a per-file exception (from chunk read,
blob upload or add_file), then the loop swallows the failure, the job raises
nothing, and the final snapshot has status "completed", files_done = N - 1
and N - 1 indexed ids; the failed entry's flattened key is absent from
indexed_ids provided no other eligible entry shares that flattened key
(without that proviso absence fails, see the counterexample). -/
theorem c1_single_failure_isolated (upload_id filename user_oid : String) (data_len : Nat)
    (names supported : List String) (fails : ZipEntry → Bool) (e₀ : ZipEntry)
    (hd : data_len ≠ 0) (hsz : data_len ≤ MAX_ZIP_SIZE_BYTES)
    (hct : (members names).length ≤ MAX_ZIP_FILE_COUNT)
    (he₀ : e₀ ∈ to_process (zipBasename filename) supported (members names))
    (hfe : fails e₀ = true)
    (hone : (to_process (zipBasename filename) supported (members names)).countP
      (fun e => fails e) = 1)
    (hnc : ∀ e ∈ to_process (zipBasename filename) supported (members names),
      fails e = false → e.flattened ≠ e₀.flattened) :
    (process_zip_job upload_id filename user_oid data_len names supported fails).error = none ∧
    ∃ ids,
      (process_zip_job upload_id filename user_oid data_len names supported fails).snapshots.getLast? =
        some ⟨"completed",
          (to_process (zipBasename filename) supported (members names)).length,
          (to_process (zipBasename filename) supported (members names)).length - 1,
          ids, user_oid⟩ ∧
      ids.length = (to_process (zipBasename filename) supported (members names)).length - 1 ∧
      e₀.flattened ∉ ids := by
  rw [process_zip_job_ok upload_id filename user_oid data_len names supported fails hd hsz hct]
  set tp := to_process (zipBasename filename) supported (members names) with htp
  have hflen : (tp.filter (fun e => !fails e)).length = tp.length - 1 := by
    have h1 : tp.countP (fun e => fails e) + tp.countP (fun e => !fails e) = tp.length := by
      clear hone he₀ hnc htp
      induction tp with
      | nil => rfl
      | cons a l ih => by_cases h : fails a <;> simp [List.countP_cons, h] <;> omega
    have h2 : tp.countP (fun e => !fails e) = (tp.filter (fun e => !fails e)).length :=
      List.countP_eq_length_filter _ _
    rw [hone] at h1
    omega
  refine ⟨runJob_error user_oid tp fails, (tp.filter (fun e => !fails e)).map (fun e => e.flattened),
    ?_, ?_, ?_⟩
  · rw [runJob_snapshots, List.getLast?_concat, runLoop_fst, runLoop_ids]
    rw [hflen]
    simp
  · rw [List.length_map, hflen]
  · intro hmem
    obtain ⟨e, hef, hfl⟩ := List.mem_map.mp hmem
    have he := List.mem_filter.mp hef
    have hno : fails e = false := by
      have := he.2
      simpa using this
    exact hnc e he.1 hno hfl

theorem c1_witness :
    (process_zip_job "u" "proj.zip" "o" 1 ["a.ts", "b.ts"] [".ts"]
      (fun e => e.name == "a.ts")).error = none ∧
    ∃ ids,
      (process_zip_job "u" "proj.zip" "o" 1 ["a.ts", "b.ts"] [".ts"]
          (fun e => e.name == "a.ts")).snapshots.getLast? =
        some ⟨"completed",
          (to_process (zipBasename "proj.zip") [".ts"] (members ["a.ts", "b.ts"])).length,
          (to_process (zipBasename "proj.zip") [".ts"] (members ["a.ts", "b.ts"])).length - 1,
          ids, "o"⟩ ∧
      ids.length =
        (to_process (zipBasename "proj.zip") [".ts"] (members ["a.ts", "b.ts"])).length - 1 ∧
      (ZipEntry.mk "a.ts" "a.ts" "proj__a.ts").flattened ∉ ids :=
  c1_single_failure_isolated "u" "proj.zip" "o" 1 ["a.ts", "b.ts"] [".ts"]
    (fun e => e.name == "a.ts") ⟨"a.ts", "a.ts", "proj__a.ts"⟩
    (by decide) (by decide) (by decide) (by decide) (by decide) (by decide) (by decide)

/-- The progress-trace relation of C2: files_done may only grow and
indexed_ids may only be extended by appending. -/
def SnapStep (a b : Snapshot) : Prop :=
  a.files_done ≤ b.files_done ∧ ∃ t, b.indexed_ids = a.indexed_ids ++ t

theorem runLoop_inv (files_total : Nat) (user_oid : String) (fails : ZipEntry → Bool) :
    ∀ (l : List ZipEntry) (fd : Nat) (ids : List String) (snaps : List Snapshot),
      ids.length = fd →
      List.Chain' SnapStep snaps →
      (∀ s ∈ snaps, s.indexed_ids.length = s.files_done ∧ s.files_total = files_total) →
      (∀ s, snaps.getLast? = some s → s.files_done ≤ fd ∧ ∃ t, ids = s.indexed_ids ++ t) →
      (runLoop files_total user_oid fails l (fd, ids, snaps)).2.1.length =
          (runLoop files_total user_oid fails l (fd, ids, snaps)).1 ∧
        List.Chain' SnapStep (runLoop files_total user_oid fails l (fd, ids, snaps)).2.2 ∧
        (∀ s ∈ (runLoop files_total user_oid fails l (fd, ids, snaps)).2.2,
          s.indexed_ids.length = s.files_done ∧ s.files_total = files_total) ∧
        (∀ s, (runLoop files_total user_oid fails l (fd, ids, snaps)).2.2.getLast? = some s →
          s.files_done ≤ (runLoop files_total user_oid fails l (fd, ids, snaps)).1 ∧
          ∃ t, (runLoop files_total user_oid fails l (fd, ids, snaps)).2.1 = s.indexed_ids ++ t) := by
  intro l
  induction l with
  | nil =>
    intro fd ids snaps h1 h2 h3 h4
    exact ⟨h1, h2, h3, h4⟩
  | cons e rest ih =>
    intro fd ids snaps h1 h2 h3 h4
    by_cases hf : fails e
    · simp only [runLoop, if_pos hf]
      exact ih fd ids snaps h1 h2 h3 h4
    · simp only [runLoop, if_neg hf]
      apply ih
      · simp [h1]
      · rw [List.chain'_append]
        refine ⟨h2, List.chain'_singleton _, ?_⟩
        intro x hx y hy
        simp only [List.head?_cons, Option.mem_def, Option.some.injEq] at hy
        subst hy
        obtain ⟨hle, t, ht⟩ := h4 x hx
        exact ⟨by simp; omega, t ++ [e.flattened], by simp [ht]⟩
      · intro s hs
        rcases List.mem_append.mp hs with h | h
        · exact h3 s h
        · simp only [List.mem_singleton] at h
          subst h
          simp [h1]
      · intro s hs
        rw [List.getLast?_concat] at hs
        injection hs with hs
        subst hs
        exact ⟨le_refl _, [], by simp⟩

/-- C2: across the upload_session_progress calls of one run, files_done is
monotonically non-decreasing starting at 0, indexed_ids only grows by
appending, len(indexed_ids) equals files_done at every call, and
files_total is the same value (the eligible-entry count) in every call. -/
theorem c2_progress_invariants (upload_id filename user_oid : String) (data_len : Nat)
    (names supported : List String) (fails : ZipEntry → Bool) :
    List.Chain' (fun a b => a.files_done ≤ b.files_done)
      (process_zip_job upload_id filename user_oid data_len names supported fails).snapshots ∧
    List.Chain' (fun a b => ∃ t, b.indexed_ids = a.indexed_ids ++ t)
      (process_zip_job upload_id filename user_oid data_len names supported fails).snapshots ∧
    (∀ s ∈ (process_zip_job upload_id filename user_oid data_len names supported fails).snapshots,
      s.indexed_ids.length = s.files_done) ∧
    (∀ s ∈ (process_zip_job upload_id filename user_oid data_len names supported fails).snapshots,
      s.files_total =
        (to_process (zipBasename filename) supported (members names)).length) ∧
    (∀ s, (process_zip_job upload_id filename user_oid data_len names supported
        fails).snapshots.head? = some s → s.files_done = 0 ∧ s.indexed_ids = []) := by
  by_cases hd : data_len = 0
  · simp [process_zip_job, hd]
  · by_cases hsz : MAX_ZIP_SIZE_BYTES < data_len
    · simp [process_zip_job, hd, hsz]
    · by_cases hct : MAX_ZIP_FILE_COUNT < (members names).length
      · simp [process_zip_job, hd, hsz, hct]
      · rw [process_zip_job_ok upload_id filename user_oid data_len names supported fails hd
          (by omega) (by omega)]
        set tp := to_process (zipBasename filename) supported (members names) with htp
        set init : Snapshot := ⟨"processing", tp.length, 0, [], user_oid⟩ with hinit
        have hbase := runLoop_inv tp.length user_oid fails tp 0 [] [init]
          (by simp) (List.chain'_singleton _)
          (by intro s hs; simp only [List.mem_singleton] at hs; subst hs; simp [hinit])
          (by intro s hs; simp only [List.getLast?_singleton, Option.some.injEq] at hs;
              subst hs; exact ⟨by simp [hinit], [], by simp [hinit]⟩)
        obtain ⟨hb1, hb2, hb3, hb4⟩ := hbase
        set st := runLoop tp.length user_oid fails tp (0, [], [init]) with hst
        have hsnaps : (runJob user_oid tp fails).snapshots =
            st.2.2 ++ [⟨"completed", tp.length, st.1, st.2.1, user_oid⟩] := rfl
        have hchain : List.Chain' SnapStep
            (st.2.2 ++ [⟨"completed", tp.length, st.1, st.2.1, user_oid⟩]) := by
          rw [List.chain'_append]
          refine ⟨hb2, List.chain'_singleton _, ?_⟩
          intro x hx y hy
          simp only [List.head?_cons, Option.mem_def, Option.some.injEq] at hy
          subst hy
          obtain ⟨hle, t, ht⟩ := hb4 x hx
          exact ⟨hle, t, ht⟩
        have hext : ∃ t, st.2.2 = [init] ++ t :=
          runLoop_snaps_extend tp.length user_oid fails tp 0 [] [init]
        refine ⟨?_, ?_, ?_, ?_, ?_⟩
        · rw [hsnaps]
          exact hchain.imp (fun a b h => h.1)
        · rw [hsnaps]
          exact hchain.imp (fun a b h => h.2)
        · rw [hsnaps]
          intro s hs
          rcases List.mem_append.mp hs with h | h
          · exact (hb3 s h).1
          · simp only [List.mem_singleton] at h
            subst h
            exact hb1
        · rw [hsnaps]
          intro s hs
          rcases List.mem_append.mp hs with h | h
          · exact (hb3 s h).2
          · simp only [List.mem_singleton] at h
            subst h
            rfl
        · rw [hsnaps]
          intro s hs
          obtain ⟨t, ht⟩ := hext
          rw [ht] at hs
          simp only [List.singleton_append, List.cons_append, List.head?_cons,
            Option.some.injEq] at hs
          subst hs
          exact ⟨rfl, rfl⟩

theorem c2_witness :
    (Snapshot.mk "processing" 1 0 [] "o") ∈
      (process_zip_job "u" "f.zip" "o" 1 ["a.ts"] [".ts"] (fun _ => false)).snapshots ∧
    (Snapshot.mk "processing" 1 0 [] "o").indexed_ids.length =
      (Snapshot.mk "processing" 1 0 [] "o").files_done :=
  ⟨by decide,
   (c2_progress_invariants "u" "f.zip" "o" 1 ["a.ts"] [".ts"] (fun _ => false)).2.2.1
     (Snapshot.mk "processing" 1 0 [] "o") (by decide)⟩

theorem members_replicate (n : Nat) (s : String) (h : endsWithSlash s = false) :
    members (List.replicate n s) = List.replicate n s := by
  induction n with
  | zero => rfl
  | succ n ih =>
    rw [List.replicate_succ]
    simp only [members, List.filter_cons, h, Bool.not_false, if_pos]
    simp only [members] at ih
    rw [ih]

theorem members_append (l₁ l₂ : List String) :
    members (l₁ ++ l₂) = members l₁ ++ members l₂ := by
  simp [members, List.filter_append]

theorem runJob_snapshots_ne_nil (user_oid : String) (tp : List ZipEntry)
    (fails : ZipEntry → Bool) : (runJob user_oid tp fails).snapshots ≠ [] := by
  rw [runJob_snapshots]
  intro hcontra
  have hlen := congrArg List.length hcontra
  rw [List.length_append] at hlen
  simp only [List.length_singleton, List.length_nil] at hlen
  omega

/-- C4 counterexample: an archive with 30001 entries, one of which is a
directory entry, has full entry count exceeding MAX_ZIP_FILE_COUNT = 30000,
yet process_zip_job raises no ValueError (and even writes progress
snapshots), because the code counts entries only after dropping directory
entries. -/
theorem c4_counterexample :
    (List.replicate 30000 "b.ts" ++ ["d/"]).length = 30001 ∧
    MAX_ZIP_FILE_COUNT < 30001 ∧
    (process_zip_job "u" "p.zip" "o" 1 (List.replicate 30000 "b.ts" ++ ["d/"]) [".ts"]
      (fun _ => false)).error = none ∧
    (process_zip_job "u" "p.zip" "o" 1 (List.replicate 30000 "b.ts" ++ ["d/"]) [".ts"]
      (fun _ => false)).snapshots ≠ [] := by
  have hm : members (List.replicate 30000 "b.ts" ++ ["d/"]) = List.replicate 30000 "b.ts" := by
    rw [members_append, members_replicate 30000 "b.ts" (by decide)]
    have : members ["d/"] = [] := by decide
    rw [this, List.append_nil]
  have hct : (members (List.replicate 30000 "b.ts" ++ ["d/"])).length ≤ MAX_ZIP_FILE_COUNT := by
    rw [hm, List.length_replicate]
    decide
  have hok := process_zip_job_ok "u" "p.zip" "o" 1 (List.replicate 30000 "b.ts" ++ ["d/"]) [".ts"]
    (fun _ => false) (by decide) (by decide) hct
  refine ⟨by rw [List.length_append, List.length_replicate]; rfl, by decide, ?_, ?_⟩
  · rw [hok]
    rfl
  · rw [hok]
    exact runJob_snapshots_ne_nil "o" _ _

/-- C4 (amended): process_zip_job raises a ValueError when the assembled
archive exceeds 50 MiB (message citing the limit in MB) or when the count of
non-directory entries exceeds 30000 (message citing the limit); in either
case the error is raised before any per-file work and before any
upload_session_progress call, so a rejected job writes no snapshot; archives
at exactly the limits are accepted.  (The original claim's "entry count" —
the archive's full entry count including directory entries — is not what is
checked: see the counterexample.) -/
theorem c4_limit_enforcement (upload_id filename user_oid : String) (data_len : Nat)
    (names supported : List String) (fails : ZipEntry → Bool) :
    (MAX_ZIP_SIZE_BYTES < data_len →
      process_zip_job upload_id filename user_oid data_len names supported fails =
        ⟨[], some sizeLimitMsg⟩) ∧
    (data_len ≠ 0 → data_len ≤ MAX_ZIP_SIZE_BYTES →
      MAX_ZIP_FILE_COUNT < (members names).length →
      process_zip_job upload_id filename user_oid data_len names supported fails =
        ⟨[], some countLimitMsg⟩) ∧
    sizeLimitMsg = "Zip exceeds 50 MB limit" ∧
    countLimitMsg = "Zip contains too many files (max 30000)" ∧
    (data_len = MAX_ZIP_SIZE_BYTES → (members names).length = MAX_ZIP_FILE_COUNT →
      (process_zip_job upload_id filename user_oid data_len names supported fails).error =
        none) := by
  refine ⟨?_, ?_, by decide, by decide, ?_⟩
  · intro h
    simp only [process_zip_job]
    rw [if_neg (by simp [MAX_ZIP_SIZE_BYTES] at h ⊢; omega), if_pos h]
  · intro hd hsz hct
    simp only [process_zip_job]
    rw [if_neg hd, if_neg (by omega), if_pos hct]
  · intro hd hct
    rw [process_zip_job_ok upload_id filename user_oid data_len names supported fails
      (by simp [MAX_ZIP_SIZE_BYTES] at hd ⊢; omega) (by omega) (by omega)]
    exact runJob_error user_oid _ fails

theorem c4_witness :
    process_zip_job "u" "p.zip" "o" 52428801 ["a.ts"] [".ts"] (fun _ => false) =
      ⟨[], some sizeLimitMsg⟩ ∧
    process_zip_job "u" "p.zip" "o" 1 (List.replicate 30001 "c.ts") [".ts"] (fun _ => false) =
      ⟨[], some countLimitMsg⟩ ∧
    (process_zip_job "u" "p.zip" "o" 52428800 (List.replicate 30000 "c.ts") [".ts"]
      (fun _ => false)).error = none := by
  have hm1 : (members (List.replicate 30001 "c.ts")).length = 30001 := by
    rw [members_replicate 30001 "c.ts" (by decide), List.length_replicate]
  have hm2 : (members (List.replicate 30000 "c.ts")).length = 30000 := by
    rw [members_replicate 30000 "c.ts" (by decide), List.length_replicate]
  refine ⟨?_, ?_, ?_⟩
  · exact (c4_limit_enforcement "u" "p.zip" "o" 52428801 ["a.ts"] [".ts"] (fun _ => false)).1
      (by decide)
  · exact (c4_limit_enforcement "u" "p.zip" "o" 1 (List.replicate 30001 "c.ts") [".ts"]
      (fun _ => false)).2.1 (by decide) (by decide) (by rw [hm1]; decide)
  · exact (c4_limit_enforcement "u" "p.zip" "o" 52428800 (List.replicate 30000 "c.ts") [".ts"]
      (fun _ => false)).2.2.2.2 (by decide) (by rw [hm2]; rfl)

/-- C5 counterexample: an archive with 30001 total entries of which two are
directory entries is accepted (members count 29999 ≤ 30000), showing the
count compared against the maximum is NOT the archive's full entry count but
the count after directory entries are dropped. -/
theorem c5_counterexample :
    (List.replicate 29999 "e.ts" ++ ["d1/", "d2/"]).length = 30001 ∧
    MAX_ZIP_FILE_COUNT < 30001 ∧
    (members (List.replicate 29999 "e.ts" ++ ["d1/", "d2/"])).length = 29999 ∧
    (process_zip_job "u" "p.zip" "o" 1 (List.replicate 29999 "e.ts" ++ ["d1/", "d2/"]) [".ts"]
      (fun _ => false)).error = none := by
  have hm : members (List.replicate 29999 "e.ts" ++ ["d1/", "d2/"]) =
      List.replicate 29999 "e.ts" := by
    rw [members_append, members_replicate 29999 "e.ts" (by decide)]
    have : members ["d1/", "d2/"] = [] := by decide
    rw [this, List.append_nil]
  refine ⟨by rw [List.length_append, List.length_replicate]; rfl, by decide,
    by rw [hm, List.length_replicate], ?_⟩
  rw [process_zip_job_ok "u" "p.zip" "o" 1 _ [".ts"] (fun _ => false) (by decide) (by decide)
    (by rw [hm, List.length_replicate]; decide)]
  rfl

/-- C5 (amended): the entry-count cap is enforced after directory entries
are dropped: given a non-empty archive within the size cap, the job is
rejected with the count message exactly when the number of non-directory
entries exceeds the maximum, and separator normalization and extension
filtering happen afterwards, on the remaining (non-directory) entries. -/
theorem c5_count_after_directory_drop (upload_id filename user_oid : String) (data_len : Nat)
    (names supported : List String) (fails : ZipEntry → Bool)
    (hd : data_len ≠ 0) (hsz : data_len ≤ MAX_ZIP_SIZE_BYTES) :
    ((process_zip_job upload_id filename user_oid data_len names supported fails).error =
        some countLimitMsg ↔ MAX_ZIP_FILE_COUNT < (members names).length) ∧
    (∀ e ∈ to_process (zipBasename filename) supported (members names),
      e.name ∈ members names ∧ endsWithSlash e.name = false ∧
      e.rel_path = normalizeRel e.name ∧
      supported.contains (lowerStr (extOf e.rel_path)) = true ∧
      e.flattened = flattenedKey (zipBasename filename) e.rel_path) := by
  constructor
  · by_cases hct : MAX_ZIP_FILE_COUNT < (members names).length
    · simp only [process_zip_job]
      rw [if_neg hd, if_neg (by omega), if_pos hct]
      simp [hct]
    · rw [process_zip_job_ok upload_id filename user_oid data_len names supported fails hd hsz
        (by omega)]
      rw [runJob_error]
      simp [hct]
  · intro e he
    obtain ⟨name, hname, heq⟩ := List.mem_filterMap.mp he
    by_cases hc : supported.contains (lowerStr (extOf (normalizeRel name))) = true
    · rw [if_pos hc] at heq
      injection heq with heq
      subst heq
      refine ⟨hname, ?_, rfl, hc, rfl⟩
      have := List.mem_filter.mp hname
      simpa using this.2
    · rw [if_neg hc] at heq
      exact Option.noConfusion heq

theorem c5_witness :
    ZipEntry.mk "a.ts" "a.ts" "proj__a.ts" ∈
      to_process (zipBasename "proj.zip") [".ts"] (members ["a.ts", "d/"]) ∧
    ("a.ts" ∈ members ["a.ts", "d/"] ∧ endsWithSlash "a.ts" = false ∧
      "a.ts" = normalizeRel "a.ts" ∧
      [".ts"].contains (lowerStr (extOf "a.ts")) = true ∧
      "proj__a.ts" = flattenedKey (zipBasename "proj.zip") "a.ts") :=
  ⟨by decide,
   (c5_count_after_directory_drop "u" "proj.zip" "o" 1 ["a.ts", "d/"] [".ts"] (fun _ => false)
      (by decide) (by decide)).2 ⟨"a.ts", "a.ts", "proj__a.ts"⟩ (by decide)⟩
